import Mathlib

/-!
# PfmViewer: header arithmetic, payload load and display assembly

A shallow embedding of `src/main.cpp` (the PFM/PHM viewer).

Conventions of the embedding

* `int` is a 32-bit two's complement integer: values are `Int`, and every
  `int` multiplication is followed by `wrap_int32`.  (Signed overflow is
  undefined in C++; wrap-around is what the usual targets compute.)
* `size_t` is a 64-bit unsigned integer: values are `Nat`, reduced modulo
  `2 ^ 64`.
* `char` values are `Char`; `tolower` and `islower` are those of the "C"
  locale.
* `std::istream` is a record of the bytes not yet extracted, the three
  iostate bits, the exception mask and `gcount`.
* `in` is either the ifstream or `std::cin`; `freopen` on `stdin` touches only
  the latter, and what it leaves there is an input of the model.
* `paint::graphics` is the log of `set_pixel` calls, newest first.
* The ispc tone mapping kernels are not part of the C++ source; they are
  parameters of the definitions that call them.
-/

namespace PfmViewer

/-! ## Machine integers -/

/-- Two's complement reduction of a mathematical integer to `int`. -/
def wrap_int32 (z : Int) : Int := (z + 2147483648) % 4294967296 - 2147483648

/-- Conversion of an `int` to `size_t` (a 64-bit unsigned integer). -/
def to_size_t (z : Int) : Nat := (z % 18446744073709551616).toNat

/-- Reduction of a product computed in `size_t`. -/
def wrap_size_t (n : Nat) : Nat := n % 18446744073709551616

/-! ## `pfm_header` (main.cpp lines 40-51) -/

/-- The "C" locale `tolower`: `A`-`Z` are shifted to `a`-`z`, all else is unchanged. -/
def tolower (c : Char) : Char :=
  if 65 ≤ c.toNat ∧ c.toNat ≤ 90 then Char.ofNat (c.toNat + 32) else c

/-- The "C" locale `islower`: true exactly on `a`-`z`. -/
def islower (c : Char) : Bool := decide (97 ≤ c.toNat ∧ c.toNat ≤ 122)

/-- The "C" locale `isupper`: true exactly on `A`-`Z` (used in statements only). -/
def isupper (c : Char) : Bool := decide (65 ≤ c.toNat ∧ c.toNat ≤ 90)

/-- The header record.  The field `scale_endian` (a float that is extracted and
printed, and read by no other code) is left out. -/
structure pfm_header where
  magic : String
  w : Int
  h : Int
deriving DecidableEq, Repr

namespace pfm_header

/-- Line 46: `magic.length() >= 2 ? magic[1] : 0`. -/
def get_magic2ndchar (p : pfm_header) : Char :=
  if p.magic.length ≥ 2 then p.magic.data.getD 1 (Char.ofNat 0) else Char.ofNat 0

/-- Line 47: `tolower(get_magic2ndchar()) == 'h'`. -/
def is_half (p : pfm_header) : Bool := tolower p.get_magic2ndchar == 'h'

/-- Line 48: `islower(get_magic2ndchar())`. -/
def is_mono (p : pfm_header) : Bool := islower p.get_magic2ndchar

/-- Line 49: `is_mono() ? 1 : 3`. -/
def num_channels (p : pfm_header) : Int := if p.is_mono then 1 else 3

/-- Line 50: `w * h * num_channels() * sizeof(float) / (is_half() ? 2 : 1)`.
The first two products are `int` products; the result is converted to
`size_t` for the product with `sizeof(float) = 4` and the division. -/
def calc_raw_size (p : pfm_header) : Nat :=
  wrap_size_t (to_size_t (wrap_int32 (wrap_int32 (p.w * p.h) * p.num_channels)) * 4)
    / (if p.is_half then 2 else 1)

end pfm_header

/-! ## `stou` (main.cpp lines 76-79) -/

/-- The function `stou`: `uint8_t((int)i + 128)`, the conversion to `uint8_t` being
reduction modulo 256. -/
def stou (i : Int) : Int := (i + 128) % 256

/-! ## The input stream, as far as `main` uses it -/

/-- The iostate bits of a stream; also used for the exception mask. -/
structure iostate where
  eofbit : Bool
  failbit : Bool
  badbit : Bool
deriving DecidableEq, Repr

/-- A `std::istream`: the bytes not yet extracted, `rdstate()`, the mask given to
`exceptions(...)` and the value of `gcount()`. -/
structure istream where
  pending : List Nat
  state : iostate
  exceptions : iostate
  gcount : Nat
deriving DecidableEq, Repr

namespace istream

/-- The predicate `good()`: no state bit is set. -/
def good (s : istream) : Bool := !s.state.eofbit && !s.state.failbit && !s.state.badbit

/-- The call `setstate(add)`: the bits are or-ed into the state, and
`std::ios_base::failure` is thrown (`Except.error`, carrying the stream) when a
bit of the exception mask is then set. -/
def setstate (s : istream) (add : iostate) : Except istream istream :=
  let st : iostate :=
    ⟨s.state.eofbit || add.eofbit, s.state.failbit || add.failbit, s.state.badbit || add.badbit⟩
  let s1 : istream := { s with state := st }
  if (st.eofbit && s.exceptions.eofbit) || (st.failbit && s.exceptions.failbit)
      || (st.badbit && s.exceptions.badbit) then
    Except.error s1
  else
    Except.ok s1

/-- Line 128: `exceptions(failbit | badbit)` installs the mask and re-raises the
current state against it. -/
def set_exceptions (s : istream) : Except istream istream :=
  setstate { s with exceptions := ⟨false, true, true⟩ } ⟨false, false, false⟩

/-- Line 154: `ignore(1)`.  The sentry sets failbit on a stream that is not good;
otherwise one byte is dropped, or eofbit is set when there is none. -/
def ignore1 (s : istream) : Except istream istream :=
  if s.good then
    match s.pending with
    | [] => setstate { s with gcount := 0 } ⟨true, false, false⟩
    | _ :: rest => Except.ok { s with pending := rest, gcount := 1 }
  else
    setstate { s with gcount := 0 } ⟨false, true, false⟩

/-- Line 156: `clear()` resets the state to goodbit. -/
def clear (s : istream) : istream := { s with state := ⟨false, false, false⟩ }

/-- Line 161: `read(buf, n)`.  Returns the bytes stored into the buffer and the
stream afterwards; when fewer than `n` bytes could be extracted the stream calls
`setstate(eofbit | failbit)`. -/
def read (s : istream) (n : Nat) : List Nat × Except istream istream :=
  if s.good then
    let got := s.pending.take n
    let s1 : istream := { s with pending := s.pending.drop n, gcount := got.length }
    (got, if got.length < n then setstate s1 ⟨true, true, false⟩ else Except.ok s1)
  else
    ([], setstate { s with gcount := 0 } ⟨false, true, false⟩)

end istream

/-! ## The load block of `main` (main.cpp lines 136-174) -/

/-- What the load block does to the outside, in program order. -/
inductive event where
  | cout_header
  | msg_no_data
  | msg_too_large (w h : Int)
  | raw_resize (n : Nat)
  | cout_about_to_read (n : Nat)
  | in_read (n : Nat)
  | cout_not_enough (cnt alloc : Nat)
  | cout_remaining (n : Int)
  | cout_success
  | msg_exception
deriving DecidableEq, Repr

/-- The result of the load block: the value `main` returns from inside the block
(`none` when control leaves the block and goes on to line 176), the vector
`raw`, the events, and the stream. -/
structure load_result where
  exit : Option Nat
  raw : List Nat
  trace : List event
  inp : istream
deriving DecidableEq, Repr

/-- The bytes of `got` written over the front of `buf`. -/
def store (buf got : List Nat) : List Nat := got ++ buf.drop got.length

/-- Which stream `in` points to (lines 102-124): the ifstream `infile`, or
`std::cin`.  `freopen(nullptr, "rb", stdin)` at line 157 and `sync()` at line 160
act on the C stream under `std::cin` and on nothing else; what they leave there
depends on the platform, so `reopened` is given: the bytes `std::cin` delivers
after them. -/
inductive input_source where
  | infile
  | cin (reopened : List Nat)
deriving DecidableEq, Repr

/-- The bytes the `read` of line 161 can extract, `pending` being what the stream
held after line 156. -/
def delivered (src : input_source) (pending : List Nat) : List Nat :=
  match src with
  | input_source.infile => pending
  | input_source.cin reopened => reopened

/-- Lines 157-160 (`freopen` on `stdin`, then `sync()`), as seen from `in`. -/
def reopen (src : input_source) (s : istream) : istream :=
  { s with pending := delivered src s.pending }

/-- Lines 136-174, run on the header extracted at line 134 and the stream as that
extraction left it.  `cin_in_avail` is `std::cin.rdbuf()->in_avail()`; `src` says
which stream `in` is.  The `noskipws` manipulator leaves the modelled stream as
it is. -/
def main_load (pfm : pfm_header) (s : istream) (cin_in_avail : Int) (src : input_source) :
    load_result :=
  let alloc := pfm.calc_raw_size
  if alloc = 0 then
    ⟨some 2, [], [event.cout_header, event.msg_no_data], s⟩
  else if alloc > 1000000000 then
    ⟨some 3, [], [event.cout_header, event.msg_too_large pfm.w pfm.h], s⟩
  else
    let raw := List.replicate alloc 0
    let tr := [event.cout_header, event.raw_resize alloc, event.cout_about_to_read alloc]
    match s.ignore1 with
    | Except.error s1 => ⟨some 4, raw, tr ++ [event.msg_exception], s1⟩
    | Except.ok s1 =>
      let r := (reopen src s1.clear).read alloc
      let raw1 := store raw r.1
      let tr1 := tr ++ [event.in_read alloc]
      match r.2 with
      | Except.error s2 => ⟨some 4, raw1, tr1 ++ [event.msg_exception], s2⟩
      | Except.ok s2 =>
        if s2.gcount ≠ alloc then
          ⟨none, raw1, tr1 ++ [event.cout_not_enough s2.gcount alloc], s2⟩
        else if cin_in_avail > 0 then
          ⟨none, raw1, tr1 ++ [event.cout_remaining cin_in_avail], s2⟩
        else
          ⟨none, raw1, tr1 ++ [event.cout_success], s2⟩

/-- The stream as line 134 leaves it when the header extraction succeeded under
the mask of line 128: `pending` is what follows the `scale_endian` token, and
eofbit is set when the extraction ran into the end of the input. -/
def after_header (pending : List Nat) (eof : Bool) : istream :=
  ⟨pending, ⟨eof, false, false⟩, ⟨false, true, true⟩, 0⟩

/-! ## The display block of `main` (main.cpp lines 176-199) -/

/-- A `nana::color` built from three `uint8_t` values. -/
structure color where
  r : Int
  g : Int
  b : Int
deriving DecidableEq, Repr

/-- Conversion of an `int` to `unsigned` (the fields of `nana::size`). -/
def to_unsigned (z : Int) : Nat := (z % 4294967296).toNat

/-- A `paint::graphics`: its size and the `set_pixel` calls made on it, newest
first. -/
structure graphics where
  width : Nat
  height : Nat
  pixels : List ((Int × Int) × color)
deriving DecidableEq, Repr

namespace graphics

/-- Line 183: `paint::graphics surface(size(pfm.w, pfm.h))`. -/
def create (w h : Int) : graphics := ⟨to_unsigned w, to_unsigned h, []⟩

/-- The call `set_pixel(x, y, c)`. -/
def set_pixel (g : graphics) (x y : Int) (c : color) : graphics :=
  { g with pixels := ((x, y), c) :: g.pixels }

/-- The colour last written at `(x, y)`, if any. -/
def pixel_at (g : graphics) (x y : Int) : Option color := g.pixels.lookup (x, y)

end graphics

/-- Lines 187-191, the inner loop of the RGB branch for row `y`.  The state is the
surface and the position of `rgb_it`; a dereference outside `rgb` is `none`. -/
def rgb_row (rgb : List Int) (w : Nat) (y : Nat) (st : graphics × Nat) :
    Option (graphics × Nat) :=
  (List.range w).foldlM (fun (st : graphics × Nat) (x : Nat) => do
    let r ← rgb[st.2]?
    let g ← rgb[st.2 + 1]?
    let b ← rgb[st.2 + 2]?
    pure (st.1.set_pixel (x : Int) (y : Int) ⟨stou r, stou g, stou b⟩, st.2 + 3)) st

/-- Lines 194-199, the inner loop of the monochrome branch for row `y`. -/
def mono_row (rgb : List Int) (w : Nat) (y : Nat) (st : graphics × Nat) :
    Option (graphics × Nat) :=
  (List.range w).foldlM (fun (st : graphics × Nat) (x : Nat) => do
    let v ← rgb[st.2]?
    let bw := stou v
    pure (st.1.set_pixel (x : Int) (y : Int) ⟨bw, bw, bw⟩, st.2 + 1)) st

/-- Lines 183-199: the surface is created and filled from `rgb`.  The result is
`none` when the loops dereference `rgb_it` outside `rgb`. -/
def assemble (pfm : pfm_header) (rgb : List Int) : Option graphics :=
  let surface := graphics.create pfm.w pfm.h
  if pfm.num_channels = 3 then
    ((List.range pfm.h.toNat).foldlM
      (fun (st : graphics × Nat) (y : Nat) => rgb_row rgb pfm.w.toNat y st) (surface, 0)).map
      Prod.fst
  else
    ((List.range pfm.h.toNat).foldlM
      (fun (st : graphics × Nat) (y : Nat) => mono_row rgb pfm.w.toNat y st) (surface, 0)).map
      Prod.fst

/-- The two ispc kernels `ToneAllF16PixelsAndToGamma` and
`ToneAllF32PixelsAndToGamma`: from the sample bytes, the output buffer, the
sample count and the exposure to the output buffer afterwards. -/
structure kernels where
  f16 : List Nat → List Int → Nat → Rat → List Int
  f32 : List Nat → List Int → Nat → Rat → List Int

/-- Lines 176-181 with the exposure argument of the kernel call left open: `rgb`
is sized to `w * h * num_channels()` and filled by the kernel the header
selects. -/
def tone_map_with (k : kernels) (pfm : pfm_header) (raw : List Nat) (exposure : Rat) :
    List Int :=
  let rgb : List Int :=
    List.replicate (to_size_t (wrap_int32 (wrap_int32 (pfm.w * pfm.h) * pfm.num_channels))) 0
  if pfm.is_half then k.f16 raw rgb (raw.length / 2) exposure
  else k.f32 raw rgb (raw.length / 4) exposure

/-- Lines 176-181 as written: both kernel calls pass the constant `1.f`. -/
def tone_map (k : kernels) (pfm : pfm_header) (raw : List Nat) : List Int :=
  tone_map_with k pfm raw 1

/-! ## The viewer state and its callbacks (main.cpp lines 68-72, 86-92, 201-213) -/

/-- The record `app_state` with its default member initialisers. -/
structure app_state where
  exposure : Rat := 1
  gamma : Bool := true
  tone : Bool := true
  flipy : Bool := false
deriving DecidableEq, Repr

/-- What the window holds while `exec()` runs: the state the callbacks write and
the surface the `draw` callback blits. -/
structure viewer where
  state : app_state
  surface : graphics
deriving DecidableEq, Repr

/-- The callbacks wired at lines 207-213; a click carries `cb.checked()`, a slider
change carries the slider value. -/
inductive ui_event where
  | click_gamma (checked : Bool)
  | click_tone (checked : Bool)
  | click_flipy (checked : Bool)
  | exposure_changed (value : Nat)
deriving DecidableEq, Repr

namespace viewer

/-- Lines 201-234 at start-up: the default state and the surface built before it. -/
def init (surface : graphics) : viewer := ⟨{}, surface⟩

/-- One callback.  `data_bind` stores `cb.checked()` in the bound field; the slider
callback evaluates `exp.value()` and drops it. -/
def step (v : viewer) : ui_event → viewer
  | ui_event.click_gamma b => { v with state := { v.state with gamma := b } }
  | ui_event.click_tone b => { v with state := { v.state with tone := b } }
  | ui_event.click_flipy b => { v with state := { v.state with flipy := b } }
  | ui_event.exposure_changed _ => v

/-- A sequence of callbacks, in order. -/
def run (v : viewer) (es : List ui_event) : viewer := es.foldl step v

end viewer

/-- Lines 176-201: from the loaded payload to the window at start-up. -/
def main_display (k : kernels) (pfm : pfm_header) (raw : List Nat) : Option viewer :=
  (assemble pfm (tone_map k pfm raw)).map viewer.init

/-- Lines 136-201: the load block and, when it did not return, the display block.
A `return` inside the load block ends `main`, so no window is built then. -/
def main_from_header (k : kernels) (pfm : pfm_header) (s : istream) (cin_in_avail : Int)
    (src : input_source) : load_result × Option viewer :=
  let r := main_load pfm s cin_in_avail src
  match r.exit with
  | some _ => (r, none)
  | none => (r, main_display k pfm r.raw)

/-! ## Statement vocabulary -/

/-- The colour the claims give to the pixel whose row-major number is `i`: read
from three consecutive channel values in the RGB case, one value copied to all
three channels in the monochrome case. -/
def expected_pixel (pfm : pfm_header) (rgb : List Int) (i : Nat) : color :=
  if pfm.num_channels = 3 then
    ⟨stou (rgb.getD (3 * i) 0), stou (rgb.getD (3 * i + 1) 0), stou (rgb.getD (3 * i + 2) 0)⟩
  else
    ⟨stou (rgb.getD i 0), stou (rgb.getD i 0), stou (rgb.getD i 0)⟩

/-- The loop invariant of the assembly after `n` pixels, for a surface `w` wide and
`h` high, an iterator advancing `stride` per pixel and pixel colours `col`. -/
def assembled (w h stride : Nat) (col : Nat → color) (n : Nat) (st : graphics × Nat) : Prop :=
  st.2 = stride * n ∧ st.1.pixels.length = n ∧
  (∀ x y : Nat, x < w → y * w + x < n → st.1.pixel_at x y = some (col (y * w + x))) ∧
  (∀ e ∈ st.1.pixels, ∃ x y : Nat, e.1 = ((x : Int), (y : Int)) ∧ x < w ∧ y < h)

/-- The pixel the specification prescribes at `(x, y)` for a viewer state: kernel
at the state's exposure, then remap and assembly, the source row being
`height - 1 - y` when `flipy` is set.  (The kernels take no gamma or tone
argument, so those two flags cannot enter.) -/
def spec_display_pixel (k : kernels) (pfm : pfm_header) (raw : List Nat) (st : app_state)
    (x y : Nat) : color :=
  expected_pixel pfm (tone_map_with k pfm raw st.exposure)
    ((if st.flipy then pfm.h.toNat - 1 - y else y) * pfm.w.toNat + x)

/-- A stand-in for the two kernels, used in examples: output `i` is the first byte
of sample `i` minus 128, whatever the exposure. -/
def sample_kernels : kernels where
  f16 := fun raw _ count _ => (List.range count).map (fun i => (raw.getD (2 * i) 0 : Int) - 128)
  f32 := fun raw _ count _ => (List.range count).map (fun i => (raw.getD (4 * i) 0 : Int) - 128)

/-! ## Header facts -/

theorem wrap_int32_of_range (z : Int) (h0 : -2147483648 ≤ z) (h1 : z < 2147483648) :
    wrap_int32 z = z := by
  unfold wrap_int32
  omega

theorem to_size_t_of_nonneg (z : Int) (h0 : 0 ≤ z) (h1 : z < 2147483648) :
    (to_size_t z : Int) = z := by
  unfold to_size_t
  omega

theorem tolower_eq_h (c : Char) : tolower c = 'h' ↔ (c = 'h' ∨ c = 'H') := by
  unfold tolower
  split
  · rename_i hc
    have hval : c = Char.ofNat c.toNat := (Char.ofNat_toNat c).symm
    generalize c.toNat = n at hc hval
    obtain ⟨h1, h2⟩ := hc
    subst hval
    interval_cases n <;> decide
  · rename_i hc
    constructor
    · intro h
      exact Or.inl h
    · rintro (h | h)
      · exact h
      · subst h
        exact absurd (by decide) hc

/-! ## Loops -/

theorem foldlM_range_inv {σ : Type} (f : σ → Nat → Option σ) (P : Nat → σ → Prop) (n : Nat)
    (s0 : σ) (h0 : P 0 s0)
    (hstep : ∀ i s, i < n → P i s → ∃ s1, f s i = some s1 ∧ P (i + 1) s1) :
    ∃ s, (List.range n).foldlM f s0 = some s ∧ P n s := by
  induction n with
  | zero => exact ⟨s0, by simp, h0⟩
  | succ m ih =>
    obtain ⟨s, hs, hP⟩ := ih (fun i s hi hp => hstep i s (Nat.lt_succ_of_lt hi) hp)
    obtain ⟨s1, hf, hP1⟩ := hstep m s (Nat.lt_succ_self m) hP
    refine ⟨s1, ?_, hP1⟩
    rw [List.range_succ, List.foldlM_append, hs]
    simp [hf]

theorem row_major_inj (w x y x1 y1 : Nat) (hx : x < w) (hx1 : x1 < w)
    (h : y1 * w + x1 = y * w + x) : x1 = x ∧ y1 = y := by
  have hy : y1 = y := by
    rcases Nat.lt_trichotomy y1 y with hlt | heq | hgt
    · have := Nat.mul_le_mul_right w (Nat.succ_le_of_lt hlt)
      rw [Nat.succ_mul] at this
      omega
    · exact heq
    · have := Nat.mul_le_mul_right w (Nat.succ_le_of_lt hgt)
      rw [Nat.succ_mul] at this
      omega
  subst hy
  exact ⟨by omega, rfl⟩

theorem row_major_lt (w h x y : Nat) (hx : x < w) (hy : y < h) : y * w + x < w * h := by
  have := Nat.mul_le_mul_right w (Nat.succ_le_of_lt hy)
  rw [Nat.succ_mul, Nat.mul_comm h w] at this
  omega

theorem pixel_at_set_pixel (g : graphics) (x y x1 y1 : Nat) (c : color) :
    (g.set_pixel x y c).pixel_at x1 y1 =
      if x1 = x ∧ y1 = y then some c else g.pixel_at x1 y1 := by
  unfold graphics.set_pixel graphics.pixel_at
  simp only [List.lookup_cons]
  by_cases h : x1 = x ∧ y1 = y
  · obtain ⟨h1, h2⟩ := h
    subst h1 h2
    simp
  · have hne : (((x1 : Int), (y1 : Int)) == ((x : Int), (y : Int))) = false := by
      rw [beq_eq_false_iff_ne]
      intro heq
      simp only [Prod.mk.injEq, Nat.cast_inj] at heq
      exact h heq
    simp [hne, h]

/-- One pass of an inner loop: when the loop body writes pixel `(x, y)` with colour
`col (y * w + x)` and advances the iterator by `stride`, a row takes the
invariant from `y * w` pixels to `(y + 1) * w` pixels. -/
theorem row_assembled (f : graphics × Nat → Nat → Option (graphics × Nat))
    (w h stride : Nat) (col : Nat → color) (y : Nat) (hy : y < h)
    (hf : ∀ (st : graphics × Nat) (x : Nat), x < w → st.2 = stride * (y * w + x) →
      f st x = some (st.1.set_pixel x y (col (y * w + x)), st.2 + stride))
    (st : graphics × Nat) (hst : assembled w h stride col (y * w) st) :
    ∃ st1, (List.range w).foldlM f st = some st1 ∧
      assembled w h stride col ((y + 1) * w) st1 := by
  have key : ∃ s, (List.range w).foldlM f st = some s ∧
      assembled w h stride col (y * w + w) s := by
    apply foldlM_range_inv f (fun x s => assembled w h stride col (y * w + x) s) w st
    · simpa using hst
    · intro x s hx hs
      obtain ⟨hit, hlen, hpix, hrange⟩ := hs
      refine ⟨_, hf s x hx hit, ?_, ?_, ?_, ?_⟩
      · show s.2 + stride = stride * (y * w + (x + 1))
        rw [hit]
        ring
      · show ((((x : Int), (y : Int)), col (y * w + x)) :: s.1.pixels).length = _
        simp [hlen]
        ring
      · intro x1 y1 hx1 hn
        show (s.1.set_pixel x y (col (y * w + x))).pixel_at x1 y1 = _
        rw [pixel_at_set_pixel]
        by_cases heq : y1 * w + x1 = y * w + x
        · have := row_major_inj w x y x1 y1 hx hx1 heq
          rw [if_pos this, heq]
        · have hne : ¬ (x1 = x ∧ y1 = y) := by
            rintro ⟨h1, h2⟩
            exact heq (by rw [h1, h2])
          rw [if_neg hne]
          exact hpix x1 y1 hx1 (by omega)
      · intro e he
        have he1 : e ∈ (((x : Int), (y : Int)), col (y * w + x)) :: s.1.pixels := he
        rcases List.mem_cons.mp he1 with h1 | h1
        · exact ⟨x, y, by rw [h1], hx, hy⟩
        · exact hrange e h1
  obtain ⟨st1, h1, h2⟩ := key
  refine ⟨st1, h1, ?_⟩
  have : (y + 1) * w = y * w + w := by ring
  rw [this]
  exact h2

theorem rgb_body (rgb : List Int) (it : Nat) (h : it + 2 < rgb.length) (g : graphics)
    (x y : Nat) :
    (do
      let r ← rgb[it]?
      let g1 ← rgb[it + 1]?
      let b ← rgb[it + 2]?
      pure (g.set_pixel x y ⟨stou r, stou g1, stou b⟩, it + 3) : Option (graphics × Nat)) =
    some (g.set_pixel x y
      ⟨stou (rgb.getD it 0), stou (rgb.getD (it + 1) 0), stou (rgb.getD (it + 2) 0)⟩, it + 3) := by
  have h0 : it < rgb.length := by omega
  have h1 : it + 1 < rgb.length := by omega
  simp [List.getElem?_eq_getElem, List.getD_eq_getElem?_getD, h0, h1, h]

theorem mono_body (rgb : List Int) (it : Nat) (h : it < rgb.length) (g : graphics)
    (x y : Nat) :
    (do
      let v ← rgb[it]?
      let bw := stou v
      pure (g.set_pixel x y ⟨bw, bw, bw⟩, it + 1) : Option (graphics × Nat)) =
    some (g.set_pixel x y
      ⟨stou (rgb.getD it 0), stou (rgb.getD it 0), stou (rgb.getD it 0)⟩, it + 1) := by
  simp [List.getElem?_eq_getElem, List.getD_eq_getElem?_getD, h]

/-- The assembly loops, for a header of any size: with a channel buffer of
`w * h * channels` values the loops finish without reading outside the buffer,
and the surface holds `w * h` writes, pixel `(x, y)` being `expected_pixel` of
`y * w + x`. -/
theorem assemble_spec (p : pfm_header) (rgb : List Int)
    (hlen : (rgb.length : Int) = (p.w.toNat * p.h.toNat : Nat) * p.num_channels) :
    ∃ g, assemble p rgb = some g ∧ g.pixels.length = p.w.toNat * p.h.toNat ∧
      (∀ x y : Nat, x < p.w.toNat → y < p.h.toNat →
        g.pixel_at x y = some (expected_pixel p rgb (y * p.w.toNat + x))) ∧
      (∀ e ∈ g.pixels, ∃ x y : Nat,
        e.1 = ((x : Int), (y : Int)) ∧ x < p.w.toNat ∧ y < p.h.toNat) := by
  unfold assemble
  generalize hw : p.w.toNat = w at hlen ⊢
  generalize hh : p.h.toNat = h at hlen ⊢
  have hinit : ∀ stride, assembled w h stride (expected_pixel p rgb) (0 * w)
      (graphics.create p.w p.h, 0) := by
    intro stride
    refine ⟨by simp, by simp [graphics.create], ?_, ?_⟩
    · intro x y _ hn
      simp at hn
    · intro e he
      simp [graphics.create] at he
  have hfin : ∀ (stride : Nat) (st : graphics × Nat),
      assembled w h stride (expected_pixel p rgb) (h * w) st →
      st.1.pixels.length = w * h ∧
      (∀ x y : Nat, x < w → y < h →
        st.1.pixel_at x y = some (expected_pixel p rgb (y * w + x))) ∧
      (∀ e ∈ st.1.pixels, ∃ x y : Nat, e.1 = ((x : Int), (y : Int)) ∧ x < w ∧ y < h) := by
    intro stride st hst
    obtain ⟨_, h2, h3, h4⟩ := hst
    refine ⟨by rw [h2, Nat.mul_comm], ?_, h4⟩
    intro x y hx hy
    exact h3 x y hx (by rw [Nat.mul_comm h w]; exact row_major_lt w h x y hx hy)
  by_cases hm : p.is_mono = true
  · have hnc : p.num_channels = 1 := by simp [pfm_header.num_channels, hm]
    have hlen1 : rgb.length = w * h := by
      rw [hnc, mul_one] at hlen
      exact_mod_cast hlen
    have hcol : ∀ i, expected_pixel p rgb i =
        ⟨stou (rgb.getD i 0), stou (rgb.getD i 0), stou (rgb.getD i 0)⟩ := by
      intro i
      simp [expected_pixel, hnc]
    obtain ⟨st, hst, hP⟩ := foldlM_range_inv (fun st y => mono_row rgb w y st)
      (fun y st => assembled w h 1 (expected_pixel p rgb) (y * w) st) h
      (graphics.create p.w p.h, 0) (hinit 1)
      (by
        intro y st hy hst
        show ∃ s1, mono_row rgb w y st = some s1 ∧
          assembled w h 1 (expected_pixel p rgb) ((y + 1) * w) s1
        unfold mono_row
        apply row_assembled _ w h 1 (expected_pixel p rgb) y hy _ st hst
        intro st1 x hx hit
        have hlt := row_major_lt w h x y hx hy
        rw [hcol, ← (by omega : st1.2 = y * w + x)]
        exact mono_body rgb st1.2 (by omega) st1.1 x y)
    refine ⟨st.1, ?_, hfin 1 st hP⟩
    rw [if_neg (by rw [hnc]; decide), hst]
    rfl
  · have hnc : p.num_channels = 3 := by simp [pfm_header.num_channels, hm]
    have hlen1 : rgb.length = w * h * 3 := by
      rw [hnc] at hlen
      exact_mod_cast hlen
    have hcol : ∀ i, expected_pixel p rgb i =
        ⟨stou (rgb.getD (3 * i) 0), stou (rgb.getD (3 * i + 1) 0),
          stou (rgb.getD (3 * i + 2) 0)⟩ := by
      intro i
      simp [expected_pixel, hnc]
    obtain ⟨st, hst, hP⟩ := foldlM_range_inv (fun st y => rgb_row rgb w y st)
      (fun y st => assembled w h 3 (expected_pixel p rgb) (y * w) st) h
      (graphics.create p.w p.h, 0) (hinit 3)
      (by
        intro y st hy hst
        show ∃ s1, rgb_row rgb w y st = some s1 ∧
          assembled w h 3 (expected_pixel p rgb) ((y + 1) * w) s1
        unfold rgb_row
        apply row_assembled _ w h 3 (expected_pixel p rgb) y hy _ st hst
        intro st1 x hx hit
        have hlt := row_major_lt w h x y hx hy
        rw [hcol, ← hit]
        exact rgb_body rgb st1.2 (by omega) st1.1 x y)
    refine ⟨st.1, ?_, hfin 3 st hP⟩
    rw [if_pos hnc, hst]
    rfl

/-! ## Sizes -/

theorem num_channels_cases (p : pfm_header) : p.num_channels = 1 ∨ p.num_channels = 3 := by
  unfold pfm_header.num_channels
  split
  · exact Or.inl rfl
  · exact Or.inr rfl

theorem wrap_size_t_of_small (n : Nat) (h : n < 4294967296) : wrap_size_t (n * 4) = n * 4 := by
  unfold wrap_size_t
  omega

theorem calc_raw_size_of_fit (p : pfm_header) (hw : 0 < p.w) (hh : 0 < p.h)
    (hfit : p.w * p.h * p.num_channels < 2147483648) :
    (p.calc_raw_size : Int) = p.w * p.h * p.num_channels * 4 / (if p.is_half then 2 else 1) := by
  have hpos : 0 < p.w * p.h := Int.mul_pos hw hh
  unfold pfm_header.calc_raw_size
  generalize p.w * p.h = a at hfit hpos
  have hn : 1 ≤ p.num_channels ∧ p.num_channels ≤ 3 := by
    rcases num_channels_cases p with h | h <;> rw [h] <;> decide
  generalize p.num_channels = c at hfit hn
  have hac : a ≤ a * c := by nlinarith
  have hac0 : 0 < a * c := by nlinarith
  rw [wrap_int32_of_range a (by omega) (by omega)]
  generalize a * c = m at hfit hac0
  rw [wrap_int32_of_range m (by omega) (by omega)]
  have h3 := to_size_t_of_nonneg m (by omega) hfit
  generalize to_size_t m = n at h3
  rw [wrap_size_t_of_small n (by omega)]
  cases p.is_half
  · simp only [Bool.false_eq_true, if_false, Nat.div_one, Int.ediv_one]
    push_cast
    rw [h3]
  · simp only [if_true]
    push_cast
    rw [h3]

/-- C1. For a header with positive width and height whose product
`w * h * channels` fits a signed 32-bit int, `calc_raw_size` is exactly
`w * h * channels * 4` for float32 and `w * h * channels * 2` for half
precision; the half-precision size is the float32 size of the same grid
divided by two, and that division leaves no remainder. -/
theorem calc_raw_size_exact (p : pfm_header) (hw : 0 < p.w) (hh : 0 < p.h)
    (hfit : p.w * p.h * p.num_channels < 2147483648) :
    (p.is_half = false → (p.calc_raw_size : Int) = p.w * p.h * p.num_channels * 4) ∧
    (p.is_half = true → (p.calc_raw_size : Int) = p.w * p.h * p.num_channels * 2) ∧
    (p.is_half = true → ∀ q : pfm_header, q.w = p.w → q.h = p.h →
      q.num_channels = p.num_channels → q.is_half = false →
      p.calc_raw_size = q.calc_raw_size / 2 ∧ q.calc_raw_size % 2 = 0) := by
  have key := calc_raw_size_of_fit p hw hh hfit
  refine ⟨?_, ?_, ?_⟩
  · intro h
    rw [key, h]
    simp
  · intro h
    rw [key, h]
    simp only [if_true]
    omega
  · intro h q hqw hqh hqn hqhalf
    have keyq := calc_raw_size_of_fit q (by rw [hqw]; exact hw) (by rw [hqh]; exact hh)
      (by rw [hqw, hqh, hqn]; exact hfit)
    rw [hqw, hqh, hqn, hqhalf] at keyq
    rw [h] at key
    simp only [if_true, Bool.false_eq_true, if_false] at key keyq
    omega

/-- Witness for C1: magic "Pf", 2 x 1 gives 8 bytes, and magic "PH", 1 x 1 gives 6. -/
theorem calc_raw_size_exact_witness :
    (pfm_header.mk "Pf" 2 1).calc_raw_size = 8 ∧ (pfm_header.mk "PH" 1 1).calc_raw_size = 6 := by
  have h1 := (calc_raw_size_exact (pfm_header.mk "Pf" 2 1) (by decide) (by decide)
    (by decide)).1 (by decide)
  have h2 := (calc_raw_size_exact (pfm_header.mk "PH" 1 1) (by decide) (by decide)
    (by decide)).2.1 (by decide)
  have e1 : (pfm_header.mk "Pf" 2 1).num_channels = 1 := by decide
  have e2 : (pfm_header.mk "PH" 1 1).num_channels = 3 := by decide
  rw [e1] at h1
  rw [e2] at h2
  simp only at h1 h2
  constructor
  · exact_mod_cast h1
  · exact_mod_cast h2

/-! ## The magic token -/

/-- C2. For a magic token of at least two characters, the second character `c`
decides the layout: lowercase gives one channel, uppercase gives three, and
`is_half` holds exactly when `c` is `h` or `H`; the four rows `f`, `F`, `h`,
`H` give (float32, 1), (float32, 3), (float16, 1), (float16, 3). -/
theorem magic_table (p : pfm_header) (hlen : 2 ≤ p.magic.length) :
    p.get_magic2ndchar = p.magic.data.getD 1 (Char.ofNat 0) ∧
    (islower p.get_magic2ndchar = true → p.num_channels = 1) ∧
    (isupper p.get_magic2ndchar = true → p.num_channels = 3) ∧
    (p.is_half = true ↔ (p.get_magic2ndchar = 'h' ∨ p.get_magic2ndchar = 'H')) ∧
    (p.get_magic2ndchar = 'f' → p.is_half = false ∧ p.num_channels = 1) ∧
    (p.get_magic2ndchar = 'F' → p.is_half = false ∧ p.num_channels = 3) ∧
    (p.get_magic2ndchar = 'h' → p.is_half = true ∧ p.num_channels = 1) ∧
    (p.get_magic2ndchar = 'H' → p.is_half = true ∧ p.num_channels = 3) := by
  have hhalf : p.is_half = true ↔ (p.get_magic2ndchar = 'h' ∨ p.get_magic2ndchar = 'H') := by
    unfold pfm_header.is_half
    rw [beq_iff_eq]
    exact tolower_eq_h _
  have hrow : ∀ c : Char, p.get_magic2ndchar = c →
      p.is_half = (tolower c == 'h') ∧ p.num_channels = if islower c then 1 else 3 := by
    intro c hc
    unfold pfm_header.is_half pfm_header.num_channels pfm_header.is_mono
    rw [hc]
    exact ⟨rfl, rfl⟩
  refine ⟨?_, ?_, ?_, hhalf, ?_, ?_, ?_, ?_⟩
  · unfold pfm_header.get_magic2ndchar
    rw [if_pos hlen]
  · intro h
    unfold pfm_header.num_channels pfm_header.is_mono
    rw [h]
    rfl
  · intro h
    have hl : islower p.get_magic2ndchar = false := by
      unfold isupper at h
      unfold islower
      simp only [decide_eq_true_eq, decide_eq_false_iff_not] at h ⊢
      omega
    unfold pfm_header.num_channels pfm_header.is_mono
    rw [hl]
    rfl
  · intro h
    have := hrow _ h
    exact ⟨this.1.trans (by decide), this.2.trans (by decide)⟩
  · intro h
    have := hrow _ h
    exact ⟨this.1.trans (by decide), this.2.trans (by decide)⟩
  · intro h
    have := hrow _ h
    exact ⟨this.1.trans (by decide), this.2.trans (by decide)⟩
  · intro h
    have := hrow _ h
    exact ⟨this.1.trans (by decide), this.2.trans (by decide)⟩

/-- Witness for C2: the magic "PH" is half precision with three channels. -/
theorem magic_table_witness :
    (pfm_header.mk "PH" 1 1).is_half = true ∧ (pfm_header.mk "PH" 1 1).num_channels = 3 :=
  (magic_table (pfm_header.mk "PH" 1 1) (by decide)).2.2.2.2.2.2.2 (by decide)

/-! ## `stou` -/

/-- C7. On the signed bytes -128 .. 127, `stou i` is `i + 128`, lies in 0 .. 255,
and is strictly increasing; -128 goes to 0, 0 to 128 and 127 to 255. -/
theorem stou_spec (i j : Int) (hi : -128 ≤ i) (hi1 : i ≤ 127) (hj : -128 ≤ j) (hj1 : j ≤ 127) :
    stou i = i + 128 ∧ 0 ≤ stou i ∧ stou i ≤ 255 ∧ (i < j → stou i < stou j) ∧
    stou (-128) = 0 ∧ stou 0 = 128 ∧ stou 127 = 255 := by
  unfold stou
  refine ⟨by omega, by omega, by omega, by omega, by decide, by decide, by decide⟩

/-- Witness for C7: the two ends of the signed byte range. -/
theorem stou_spec_witness : stou (-128) = -128 + 128 ∧ stou (-128) < stou 127 :=
  have h := stou_spec (-128) 127 (by decide) (by decide) (by decide) (by decide)
  ⟨h.1, h.2.2.2.1 (by decide)⟩

/-! ## The load block -/

theorem calc_raw_size_zero (p : pfm_header) (h : p.w = 0 ∨ p.h = 0) : p.calc_raw_size = 0 := by
  have hz : p.w * p.h = 0 := by
    rcases h with h | h <;> rw [h] <;> simp
  unfold pfm_header.calc_raw_size
  rw [hz]
  have h1 : wrap_int32 0 = 0 := by decide
  have h2 : to_size_t 0 = 0 := by decide
  have h3 : wrap_size_t (0 * 4) = 0 := by decide
  rw [h1, zero_mul, h1, h2, h3, Nat.zero_div]

/-- C4. A header with width 0 or height 0 has `calc_raw_size` 0, whatever the
magic and the other dimension, and the load block returns 2 with `raw` never
resized, no `read` issued and the stream left as it was. -/
theorem zero_dimension_exit_2 (p : pfm_header) (s : istream) (avail : Int)
    (src : input_source) (h : p.w = 0 ∨ p.h = 0) :
    p.calc_raw_size = 0 ∧ (main_load p s avail src).exit = some 2 ∧
    (main_load p s avail src).raw = [] ∧
    (main_load p s avail src).trace = [event.cout_header, event.msg_no_data] ∧
    (∀ n, event.raw_resize n ∉ (main_load p s avail src).trace) ∧
    (∀ n, event.in_read n ∉ (main_load p s avail src).trace) ∧
    (main_load p s avail src).inp = s := by
  have hz := calc_raw_size_zero p h
  have hload : main_load p s avail src =
      ⟨some 2, [], [event.cout_header, event.msg_no_data], s⟩ := by
    unfold main_load
    simp [hz]
  rw [hload]
  simp [hz]

/-- Witness for C4: magic "PF", width 0, height -7, with payload bytes waiting. -/
theorem zero_dimension_exit_2_witness :
    (main_load (pfm_header.mk "PF" 0 (-7)) (after_header [10, 1, 2, 3] false) 0
      input_source.infile).exit = some 2 ∧
    (main_load (pfm_header.mk "PF" 0 (-7)) (after_header [10, 1, 2, 3] false) 0
      input_source.infile).inp = after_header [10, 1, 2, 3] false :=
  have h := zero_dimension_exit_2 (pfm_header.mk "PF" 0 (-7)) (after_header [10, 1, 2, 3] false) 0
    input_source.infile (Or.inl rfl)
  ⟨h.2.1, h.2.2.2.2.2.2⟩

/-- The load block on an accepted size, on either input, when fewer bytes than
the size can be extracted at line 161: `read` raises failbit under the mask of
line 128, the exception handler runs, the block returns 4, and line 164 is not
reached; `raw` then holds the extracted bytes followed by zeros. -/
theorem main_load_short (p : pfm_header) (pending : List Nat) (avail : Int)
    (src : input_source) (h0 : p.calc_raw_size ≠ 0) (h1 : p.calc_raw_size ≤ 1000000000)
    (hk : (delivered src (pending.drop 1)).length < p.calc_raw_size) :
    (main_load p (after_header pending false) avail src).exit = some 4 ∧
    (main_load p (after_header pending false) avail src).raw =
      delivered src (pending.drop 1) ++
        List.replicate (p.calc_raw_size - (delivered src (pending.drop 1)).length) 0 ∧
    (main_load p (after_header pending false) avail src).trace =
      [event.cout_header, event.raw_resize p.calc_raw_size,
        event.cout_about_to_read p.calc_raw_size, event.in_read p.calc_raw_size,
        event.msg_exception] := by
  have h2 : ¬ p.calc_raw_size > 1000000000 := by omega
  have htake : ∀ l : List Nat, l.length < p.calc_raw_size → List.take p.calc_raw_size l = l :=
    fun l hl => List.take_of_length_le (by omega)
  unfold main_load
  cases pending with
  | nil =>
    simp only [List.drop_nil] at hk ⊢
    have ht := htake _ hk
    simp only [h0, h2, if_false, after_header, istream.ignore1, istream.good, istream.clear,
      istream.read, istream.setstate, reopen, store, ht, hk, Bool.not_false, Bool.and_self,
      if_true, Bool.or_false, Bool.or_true, Bool.and_true, Bool.false_or, Bool.true_or,
      Bool.and_false, Bool.false_and, Bool.or_self, Bool.false_eq_true,
      List.drop_replicate, List.cons_append, List.nil_append, and_self, and_true]
  | cons c rest =>
    simp only [List.drop_succ_cons, List.drop_zero] at hk ⊢
    have ht := htake _ hk
    simp only [h0, h2, if_false, after_header, istream.ignore1, istream.good, istream.clear,
      istream.read, istream.setstate, reopen, store, ht, hk, Bool.not_false, Bool.and_self,
      if_true, Bool.or_false, Bool.or_true, Bool.and_true, Bool.false_or, Bool.true_or,
      List.drop_replicate, List.cons_append, List.nil_append, and_self, and_true]

/-- The load block on an accepted size, on either input, when at least as many
bytes as the size can be extracted at line 161: control leaves the block, `raw`
is the first `calc_raw_size` of them, and the last event is line 166 or line
168. -/
theorem main_load_full (p : pfm_header) (c : Nat) (rest : List Nat) (avail : Int)
    (src : input_source) (h0 : p.calc_raw_size ≠ 0) (h1 : p.calc_raw_size ≤ 1000000000)
    (hk : p.calc_raw_size ≤ (delivered src rest).length) :
    (main_load p (after_header (c :: rest) false) avail src).exit = none ∧
    (main_load p (after_header (c :: rest) false) avail src).raw =
      (delivered src rest).take p.calc_raw_size ∧
    (main_load p (after_header (c :: rest) false) avail src).trace =
      [event.cout_header, event.raw_resize p.calc_raw_size,
        event.cout_about_to_read p.calc_raw_size, event.in_read p.calc_raw_size,
        if avail > 0 then event.cout_remaining avail else event.cout_success] := by
  have h2 : ¬ p.calc_raw_size > 1000000000 := by omega
  have hlen : (List.take p.calc_raw_size (delivered src rest)).length = p.calc_raw_size := by
    rw [List.length_take]
    omega
  unfold main_load
  simp only [h0, h2, if_false, after_header, istream.ignore1, istream.good, istream.clear,
    istream.read, reopen, store, hlen, Bool.not_false, Bool.and_self, if_true, ne_eq,
    not_true_eq_false, List.drop_replicate, Nat.sub_self, List.replicate_zero,
    List.append_nil, List.cons_append, List.nil_append, true_and, lt_self_iff_false, gt_iff_lt]
  by_cases ha : 0 < avail <;> simp [ha]

/-- The load block on an accepted size when the header extraction already hit the
end of the input: the sentry of `ignore` raises failbit and the block returns 4
with `raw` still all zero and no `read` issued. -/
theorem main_load_at_eof (p : pfm_header) (pending : List Nat) (avail : Int)
    (src : input_source) (h0 : p.calc_raw_size ≠ 0) (h1 : p.calc_raw_size ≤ 1000000000) :
    (main_load p (after_header pending true) avail src).exit = some 4 ∧
    (main_load p (after_header pending true) avail src).raw =
      List.replicate p.calc_raw_size 0 ∧
    (main_load p (after_header pending true) avail src).trace =
      [event.cout_header, event.raw_resize p.calc_raw_size,
        event.cout_about_to_read p.calc_raw_size, event.msg_exception] := by
  have h2 : ¬ p.calc_raw_size > 1000000000 := by omega
  unfold main_load
  simp [h0, h2, after_header, istream.ignore1, istream.good, istream.setstate]

/-- The short-read line of line 164 is dead under the mask of line 128: whatever
the header, the stream left by the header extraction and the input, the load
block never emits it. -/
theorem cout_not_enough_unreachable (p : pfm_header) (pending : List Nat) (eof : Bool)
    (avail : Int) (src : input_source) (cnt a : Nat) :
    event.cout_not_enough cnt a ∉ (main_load p (after_header pending eof) avail src).trace := by
  by_cases h0 : p.calc_raw_size = 0
  · unfold main_load
    simp [h0]
  by_cases h2 : p.calc_raw_size > 1000000000
  · unfold main_load
    simp [h0, h2]
  have h1 : p.calc_raw_size ≤ 1000000000 := by omega
  cases eof with
  | true =>
    rw [(main_load_at_eof p pending avail src h0 h1).2.2]
    simp
  | false =>
    by_cases hk : (delivered src (pending.drop 1)).length < p.calc_raw_size
    · rw [(main_load_short p pending avail src h0 h1 hk).2.2]
      simp
    · cases pending with
      | nil =>
        have hlen : (List.take p.calc_raw_size (delivered src [])).length = p.calc_raw_size := by
          rw [List.length_take]
          simp only [List.drop_nil] at hk
          omega
        unfold main_load
        simp only [h0, h2, if_false, after_header, istream.ignore1, istream.good,
          istream.clear, istream.read, istream.setstate, reopen, store, hlen, Bool.not_false,
          Bool.and_self, if_true, Bool.or_false, Bool.and_false, Bool.false_eq_true, ne_eq,
          not_true_eq_false, lt_self_iff_false, Bool.or_self, Bool.false_and, Bool.or_true,
          Bool.true_or, Bool.false_or, Bool.and_true]
        by_cases ha : 0 < avail <;> simp [ha]
      | cons c rest =>
        simp only [List.drop_succ_cons, List.drop_zero] at hk
        rw [(main_load_full p c rest avail src h0 h1 (by omega)).2.2]
        by_cases ha : avail > 0 <;> simp [ha]

/-- The size check on a header whose product fits an `int`: when the implied
size exceeds 1,000,000,000 the block returns 3 with `raw` never resized and the
stream left as it was. -/
theorem large_size_exit_3 (p : pfm_header) (s : istream) (avail : Int) (src : input_source)
    (hw : 0 < p.w) (hh : 0 < p.h) (hfit : p.w * p.h * p.num_channels < 2147483648)
    (hbig : p.w * p.h * p.num_channels * 4 / (if p.is_half then 2 else 1) > 1000000000) :
    main_load p s avail src =
      ⟨some 3, [], [event.cout_header, event.msg_too_large p.w p.h], s⟩ := by
  have key := calc_raw_size_of_fit p hw hh hfit
  rw [← key] at hbig
  have h1 : p.calc_raw_size > 1000000000 := by exact_mod_cast hbig
  have h0 : p.calc_raw_size ≠ 0 := by omega
  unfold main_load
  simp [h0, h1]

/-- The size check on a header with exactly one negative dimension whose product
fits an `int`: the conversion to `size_t` makes the size huge and the block
returns 3. -/
theorem one_negative_exit_3 (p : pfm_header) (s : istream) (avail : Int) (src : input_source)
    (hneg : p.w * p.h < 0) (hfit : -2147483648 ≤ p.w * p.h * p.num_channels) :
    (main_load p s avail src).exit = some 3 := by
  have hsize : p.calc_raw_size > 1000000000 := by
    unfold pfm_header.calc_raw_size
    generalize p.w * p.h = a at hfit hneg
    have hn : 1 ≤ p.num_channels ∧ p.num_channels ≤ 3 := by
      rcases num_channels_cases p with h | h <;> rw [h] <;> decide
    generalize p.num_channels = c at hfit hn
    have hac : a * c ≤ a := by nlinarith
    rw [wrap_int32_of_range a (by omega) (by omega)]
    generalize a * c = m at hfit hac
    rw [wrap_int32_of_range m (by omega) (by omega)]
    have h3 : (to_size_t m : Int) = m + 18446744073709551616 := by
      unfold to_size_t
      omega
    generalize to_size_t m = n at h3
    have h4 : wrap_size_t (n * 4) = n * 4 - 55340232221128654848 := by
      unfold wrap_size_t
      omega
    rw [h4]
    cases p.is_half
    · simp only [Bool.false_eq_true, if_false, Nat.div_one]
      omega
    · simp only [if_true]
      omega
  have h0 : p.calc_raw_size ≠ 0 := by omega
  unfold main_load
  simp [h0, hsize]

/-- C3, evaluated on the header `Pf 65536 65537`: the payload it implies is
`65536 * 65537 * 1 * 4` bytes, more than 1,000,000,000, but the `int` product
wraps to 65536, `calc_raw_size` is 262144, the block does not return 3, `raw` is
resized to 262144 bytes and that many bytes are read. -/
theorem wrapped_product_accepted :
    (65536 : Int) * 65537 * (pfm_header.mk "Pf" 65536 65537).num_channels * 4 > 1000000000 ∧
    (pfm_header.mk "Pf" 65536 65537).calc_raw_size = 262144 ∧
    (main_load (pfm_header.mk "Pf" 65536 65537)
      (after_header (10 :: List.replicate 262144 0) false) 0 input_source.infile).exit = none ∧
    (main_load (pfm_header.mk "Pf" 65536 65537)
      (after_header (10 :: List.replicate 262144 0) false) 0 input_source.infile).trace =
      [event.cout_header, event.raw_resize 262144, event.cout_about_to_read 262144,
        event.in_read 262144, event.cout_success] := by
  have hsize : (pfm_header.mk "Pf" 65536 65537).calc_raw_size = 262144 := by decide
  have h := main_load_full (pfm_header.mk "Pf" 65536 65537) 10 (List.replicate 262144 0) 0
    input_source.infile (by rw [hsize]; decide) (by rw [hsize]; decide)
    (by
      rw [hsize]
      show 262144 ≤ (List.replicate 262144 0).length
      rw [List.length_replicate])
  rw [hsize] at h
  exact ⟨by decide, hsize, h.1, h.2.2⟩

/-- C5, evaluated on the header `Pf -2 -3`: both dimensions are negative, the
product is 6, `calc_raw_size` is 24, and the block returns neither 2 nor 3: it
resizes `raw` to 24 bytes, reads 24 payload bytes and goes on to the display. -/
theorem negative_dimensions_accepted :
    (pfm_header.mk "Pf" (-2) (-3)).calc_raw_size = 24 ∧
    (main_load (pfm_header.mk "Pf" (-2) (-3))
      (after_header (10 :: List.replicate 24 7) false) 0 input_source.infile).exit = none ∧
    (main_load (pfm_header.mk "Pf" (-2) (-3))
      (after_header (10 :: List.replicate 24 7) false) 0 input_source.infile).raw =
      List.replicate 24 7 ∧
    (main_load (pfm_header.mk "Pf" (-2) (-3))
      (after_header (10 :: List.replicate 24 7) false) 0 input_source.infile).trace =
      [event.cout_header, event.raw_resize 24, event.cout_about_to_read 24,
        event.in_read 24, event.cout_success] := by
  decide

/-- C6, evaluated on the header `Pf 2 1` (accepted, 8 payload bytes implied) read
from a file that holds 5 payload bytes after the separator: `raw` is resized to
8 and receives the 5 bytes before its 3 zero bytes, but `read` throws, the
exception dialog is shown instead of the short-read line of line 164, `main`
returns 4 and, whatever the kernels, no display is built. -/
theorem short_read_returns_4 :
    (pfm_header.mk "Pf" 2 1).calc_raw_size = 8 ∧
    (main_load (pfm_header.mk "Pf" 2 1)
      (after_header [10, 1, 2, 3, 4, 5] false) 0 input_source.infile).exit = some 4 ∧
    (main_load (pfm_header.mk "Pf" 2 1)
      (after_header [10, 1, 2, 3, 4, 5] false) 0 input_source.infile).raw =
      [1, 2, 3, 4, 5, 0, 0, 0] ∧
    (main_load (pfm_header.mk "Pf" 2 1)
      (after_header [10, 1, 2, 3, 4, 5] false) 0 input_source.infile).trace =
      [event.cout_header, event.raw_resize 8, event.cout_about_to_read 8, event.in_read 8,
        event.msg_exception] ∧
    (∀ k : kernels, (main_from_header k (pfm_header.mk "Pf" 2 1)
      (after_header [10, 1, 2, 3, 4, 5] false) 0 input_source.infile).2 = none) := by
  refine ⟨by decide, by decide, by decide, by decide, ?_⟩
  intro k
  have he : (main_load (pfm_header.mk "Pf" 2 1)
      (after_header [10, 1, 2, 3, 4, 5] false) 0 input_source.infile).exit = some 4 := by
    decide
  unfold main_from_header
  simp only [he]

/-! ## The assembly -/

/-- C8. For a header with positive width and height and a channel buffer of
`w * h * channels` values, the assembly loops finish without reading outside
the buffer and make exactly `w * h` `set_pixel` calls, all inside the grid;
pixel `(x, y)` is the `stou` of the three values at `3 * (y * w + x)` onwards
for three channels, and `(v, v, v)` with `v` the `stou` of the value at
`y * w + x` for one channel. -/
theorem assemble_pixels (p : pfm_header) (rgb : List Int) (hw : 0 < p.w) (hh : 0 < p.h)
    (hlen : (rgb.length : Int) = p.w * p.h * p.num_channels) :
    ∃ g, assemble p rgb = some g ∧ (g.pixels.length : Int) = p.w * p.h ∧
      (∀ e ∈ g.pixels, 0 ≤ e.1.1 ∧ e.1.1 < p.w ∧ 0 ≤ e.1.2 ∧ e.1.2 < p.h) ∧
      ∀ x y : Nat, (x : Int) < p.w → (y : Int) < p.h →
        (p.num_channels = 3 →
          3 * (y * p.w.toNat + x) + 2 < rgb.length ∧
          g.pixel_at x y = some
            ⟨stou (rgb.getD (3 * (y * p.w.toNat + x)) 0),
              stou (rgb.getD (3 * (y * p.w.toNat + x) + 1) 0),
              stou (rgb.getD (3 * (y * p.w.toNat + x) + 2) 0)⟩) ∧
        (p.num_channels = 1 →
          y * p.w.toNat + x < rgb.length ∧
          g.pixel_at x y = some
            ⟨stou (rgb.getD (y * p.w.toNat + x) 0), stou (rgb.getD (y * p.w.toNat + x) 0),
              stou (rgb.getD (y * p.w.toNat + x) 0)⟩) := by
  have hwn : (p.w.toNat : Int) = p.w := Int.toNat_of_nonneg (le_of_lt hw)
  have hhn : (p.h.toNat : Int) = p.h := Int.toNat_of_nonneg (le_of_lt hh)
  have hlen1 : (rgb.length : Int) = (p.w.toNat * p.h.toNat : Nat) * p.num_channels := by
    rw [hlen]
    push_cast
    rw [hwn, hhn]
  obtain ⟨g, hg, hcount, hpix, hin⟩ := assemble_spec p rgb hlen1
  refine ⟨g, hg, ?_, ?_, ?_⟩
  · rw [hcount]
    push_cast
    rw [hwn, hhn]
  · intro e he
    obtain ⟨x, y, hxy, hx, hy⟩ := hin e he
    rw [hxy]
    simp only
    omega
  · intro x y hx hy
    have hx1 : x < p.w.toNat := by omega
    have hy1 : y < p.h.toNat := by omega
    have hlt := row_major_lt p.w.toNat p.h.toNat x y hx1 hy1
    have hp := hpix x y hx1 hy1
    constructor
    · intro hn
      rw [hn] at hlen1
      have hl : rgb.length = p.w.toNat * p.h.toNat * 3 := by exact_mod_cast hlen1
      refine ⟨by omega, ?_⟩
      rw [hp]
      simp [expected_pixel, hn]
    · intro hn
      rw [hn, mul_one] at hlen1
      have hl : rgb.length = p.w.toNat * p.h.toNat := by exact_mod_cast hlen1
      refine ⟨by omega, ?_⟩
      rw [hp]
      simp [expected_pixel, hn]

/-- Witness for C8: a 2 x 1 monochrome image and its two grey pixels. -/
theorem assemble_pixels_witness :
    (assemble (pfm_header.mk "Pf" 2 1) [-128, 5]).map
      (fun g => (g.pixel_at 0 0, g.pixel_at 1 0)) =
      some (some ⟨0, 0, 0⟩, some ⟨133, 133, 133⟩) := by
  obtain ⟨g, hg, _, _, hpix⟩ :=
    assemble_pixels (pfm_header.mk "Pf" 2 1) [-128, 5] (by decide) (by decide) (by decide)
  have h0 := ((hpix 0 0 (by decide) (by decide)).2 (by decide)).2
  have h1 := ((hpix 1 0 (by decide) (by decide)).2 (by decide)).2
  rw [show ((0 : Nat) : Int) = 0 from rfl] at h0 h1
  rw [show ((1 : Nat) : Int) = 1 from rfl] at h1
  rw [hg]
  simp only [Option.map]
  rw [h0, h1]
  decide

/-! ## The viewer state -/

theorem run_keeps (v : viewer) (es : List ui_event) :
    (v.run es).surface = v.surface ∧ (v.run es).state.exposure = v.state.exposure := by
  unfold viewer.run
  induction es generalizing v with
  | nil => exact ⟨rfl, rfl⟩
  | cons e es ih =>
    rw [List.foldl_cons]
    obtain ⟨h1, h2⟩ := ih (v.step e)
    rw [h1, h2]
    cases e <;> exact ⟨rfl, rfl⟩

/-- C9, as stated, fails: on a 1 x 2 monochrome image with a black row 0 and a white
row 1, after the Flip Y checkbox is ticked the pixel at destination row
`2 - 1 - 0` is not the pixel built from source row 0. -/
theorem flipy_rows_not_reversed :
    (assemble (pfm_header.mk "Pf" 1 2) [-128, 127]).map
      (fun g => ((viewer.init g).step (ui_event.click_flipy true)).state.flipy) = some true ∧
    (assemble (pfm_header.mk "Pf" 1 2) [-128, 127]).map
      (fun g => ((viewer.init g).step (ui_event.click_flipy true)).surface.pixel_at 0 (2 - 1 - 0))
      ≠ some (some (expected_pixel (pfm_header.mk "Pf" 1 2) [-128, 127] (0 * 1 + 0))) := by
  decide

/-- C9, amended. The Flip Y flag does not enter the assembled buffer: whatever value
the checkbox stores in `flipy`, the surface shown is the assembled one, and for
every `x < width`, `y < height` the pixel built from source row `y` is at
destination row `y`. -/
theorem flipy_ignored (p : pfm_header) (rgb : List Int) (g : graphics) (b : Bool)
    (hw : 0 < p.w) (hh : 0 < p.h) (hlen : (rgb.length : Int) = p.w * p.h * p.num_channels)
    (hg : assemble p rgb = some g) :
    ((viewer.init g).step (ui_event.click_flipy b)).state.flipy = b ∧
    ((viewer.init g).step (ui_event.click_flipy b)).surface = g ∧
    ∀ x y : Nat, (x : Int) < p.w → (y : Int) < p.h →
      ((viewer.init g).step (ui_event.click_flipy b)).surface.pixel_at x y =
        some (expected_pixel p rgb (y * p.w.toNat + x)) := by
  have hwn : (p.w.toNat : Int) = p.w := Int.toNat_of_nonneg (le_of_lt hw)
  have hhn : (p.h.toNat : Int) = p.h := Int.toNat_of_nonneg (le_of_lt hh)
  have hlen1 : (rgb.length : Int) = (p.w.toNat * p.h.toNat : Nat) * p.num_channels := by
    rw [hlen]
    push_cast
    rw [hwn, hhn]
  obtain ⟨g1, hg1, _, hpix, _⟩ := assemble_spec p rgb hlen1
  have hgg : g1 = g := Option.some.inj (hg1.symm.trans hg)
  subst hgg
  refine ⟨rfl, rfl, ?_⟩
  intro x y hx hy
  exact hpix x y (by omega) (by omega)

/-- Witness for C9, amended: the 1 x 2 image of the counterexample, Flip Y ticked;
row 0 is still black and row 1 still white. -/
theorem flipy_ignored_witness :
    (assemble (pfm_header.mk "Pf" 1 2) [-128, 127]).map
      (fun g => (((viewer.init g).step (ui_event.click_flipy true)).surface.pixel_at 0 0,
        ((viewer.init g).step (ui_event.click_flipy true)).surface.pixel_at 0 1)) =
      some (some ⟨0, 0, 0⟩, some ⟨255, 255, 255⟩) := by
  obtain ⟨g, hg⟩ : ∃ g, assemble (pfm_header.mk "Pf" 1 2) [-128, 127] = some g :=
    Option.isSome_iff_exists.mp (by decide)
  have h := flipy_ignored (pfm_header.mk "Pf" 1 2) [-128, 127] g true (by decide) (by decide)
    (by decide) hg
  have h0 := h.2.2 0 0 (by decide) (by decide)
  have h1 := h.2.2 0 1 (by decide) (by decide)
  rw [hg]
  simp only [Option.map]
  rw [show ((0 : Nat) : Int) = 0 from rfl] at h0 h1
  rw [show ((1 : Nat) : Int) = 1 from rfl] at h1
  rw [h0, h1]
  decide

/-- C10, as stated, fails: with the stand-in kernels, a 1 x 2 monochrome image whose
two samples differ, and the Flip Y checkbox ticked, the pixel shown at `(0, 0)`
is not the one the pipeline gives for the current state. -/
theorem recompute_counterexample :
    (main_display sample_kernels (pfm_header.mk "Pf" 1 2) [0, 0, 0, 0, 255, 0, 0, 0]).map
      (fun v => decide (((v.step (ui_event.click_flipy true)).surface.pixel_at 0 0) =
        some (spec_display_pixel sample_kernels (pfm_header.mk "Pf" 1 2)
          [0, 0, 0, 0, 255, 0, 0, 0] (v.step (ui_event.click_flipy true)).state 0 0)))
      = some false := by
  decide

/-- C10, amended. In every state reachable through the callbacks the surface shown
is the one built at start-up, which is the assembly of the kernel output at the
state's exposure; the exposure is still 1, and the gamma, tone and flipy fields
hold what the last click on their checkbox stored, without any effect on the
surface. -/
theorem callbacks_keep_surface (k : kernels) (p : pfm_header) (raw : List Nat) (v : viewer)
    (es : List ui_event) (hv : main_display k p raw = some v) :
    (v.run es).surface = v.surface ∧ (v.run es).state.exposure = 1 ∧
    assemble p (tone_map_with k p raw (v.run es).state.exposure) = some (v.run es).surface ∧
    (∀ b, ((v.run es).step (ui_event.click_gamma b)).state.gamma = b ∧
      ((v.run es).step (ui_event.click_gamma b)).surface = v.surface) ∧
    (∀ b, ((v.run es).step (ui_event.click_tone b)).state.tone = b ∧
      ((v.run es).step (ui_event.click_tone b)).surface = v.surface) ∧
    (∀ b, ((v.run es).step (ui_event.click_flipy b)).state.flipy = b ∧
      ((v.run es).step (ui_event.click_flipy b)).surface = v.surface) ∧
    (∀ n, (v.run es).step (ui_event.exposure_changed n) = v.run es) := by
  obtain ⟨hs, he⟩ := run_keeps v es
  unfold main_display at hv
  cases hg : assemble p (tone_map k p raw) with
  | none =>
    rw [hg] at hv
    exact absurd hv (by simp)
  | some g =>
    rw [hg] at hv
    have hvg : viewer.init g = v := Option.some.inj hv
    have hexp : v.state.exposure = 1 := by rw [← hvg]; rfl
    have hsurf : v.surface = g := by rw [← hvg]; rfl
    refine ⟨hs, by rw [he, hexp], ?_, ?_, ?_, ?_, ?_⟩
    · rw [he, hexp, hs, hsurf]
      exact hg
    · intro b
      exact ⟨rfl, hs⟩
    · intro b
      exact ⟨rfl, hs⟩
    · intro b
      exact ⟨rfl, hs⟩
    · intro n
      rfl

/-- Witness for C10, amended: the image of the counterexample after a click on each
checkbox and a slider move; the pixel at `(0, 0)` is still the black one. -/
theorem callbacks_keep_surface_witness :
    (main_display sample_kernels (pfm_header.mk "Pf" 1 2) [0, 0, 0, 0, 255, 0, 0, 0]).map
      (fun v => ((v.run [ui_event.click_gamma false, ui_event.click_flipy true,
        ui_event.exposure_changed 7, ui_event.click_tone false]).surface.pixel_at 0 0)) =
      some (some ⟨0, 0, 0⟩) := by
  obtain ⟨v, hv⟩ : ∃ v, main_display sample_kernels (pfm_header.mk "Pf" 1 2)
      [0, 0, 0, 0, 255, 0, 0, 0] = some v := Option.isSome_iff_exists.mp (by decide)
  have h := callbacks_keep_surface sample_kernels (pfm_header.mk "Pf" 1 2)
    [0, 0, 0, 0, 255, 0, 0, 0] v
    [ui_event.click_gamma false, ui_event.click_flipy true, ui_event.exposure_changed 7,
      ui_event.click_tone false] hv
  rw [hv]
  simp only [Option.map]
  rw [h.1]
  have hv1 : (main_display sample_kernels (pfm_header.mk "Pf" 1 2)
      [0, 0, 0, 0, 255, 0, 0, 0]).map (fun v => v.surface.pixel_at 0 0) =
      some (some ⟨0, 0, 0⟩) := by decide
  rw [hv] at hv1
  simpa using hv1

end PfmViewer
